import Mathlib

/-!
Verification development for the MCTS engine (generic `uct_node<G>` tree in
`src/mcts.hpp`, the threaded driver in `backend/core/mcts_threaded.hpp`, and
the pybind11 binding surface in `src/corridors_bindings.cpp`).

Shallow-embedding conventions used throughout this file:

* The C++ tree is mutated in place through parent/child pointers.  Here a tree
  is a pure inductive value; operations return the updated tree.  The upward
  walk of `backprop` along parent pointers is rendered as an update along the
  root-to-leaf path of child indices (the C++ walk stops at the node whose
  parent pointer is null, i.e. the root of the standalone subtree; in the pure
  model the subtree root is where the path starts).  `orphan` (clearing the
  parent pointer) corresponds to returning a child subtree as a standalone
  root.
* `throw std::string(...)` is rendered as `Except.error` with the message.
  Out-of-bounds `std::vector::operator[]` access is undefined behavior in C++;
  the embedding surfaces any such access as `Except.error "UB: vector index
  out of range"`.
* IEEE double arithmetic: quantities that only ever hold finite values (visit
  counts, equities, which `get_equity` itself range-checks to `[-1, 1]`, the
  exploration constant `c`, probabilities) are modelled as exact rationals.
  The selection formula additionally needs `sqrt`/`log` and the IEEE special
  values they produce, so scores are computed in the type `FP` (finite
  rational, plus infinity, minus infinity, NaN) with IEEE-style propagation,
  parameterised by the finite-domain behaviour `rsqrt, rlog : ℚ → ℚ` of the
  libm functions (all theorems about scores hold for every choice of
  `rsqrt`/`rlog`, with explicitly stated domain facts such as `rsqrt 0 = 0`).
* `std::mt19937_64` together with `std::uniform_real_distribution<double>
  (0.0, 1.0)` is modelled as an arbitrary stream `rand : ℕ → ℚ` of draws and
  a counter that advances by one per draw, mirroring the exact sequence of
  `unif(rand)` calls in the source.
* The game-state capability `G` is a structure of functions `Game S`; the
  engine is polymorphic over it exactly as the C++ template is.
-/

-- Batteries marks the `Rat` arithmetic irreducible; concrete runs of the
-- embedded engine are evaluated by `decide`/`rfl`, which needs to unfold it.
attribute [local semireducible] Rat.mul Rat.add Rat.sub Rat.inv

deriving instance DecidableEq for Except

set_option maxRecDepth 40000

/-- IEEE-style double value: finite (exact rational payload), +inf, -inf, NaN. -/
inductive FP : Type where
  | fin (x : ℚ)
  | posInf
  | negInf
  | nan
deriving DecidableEq

/-- `std::numeric_limits<double>::lowest()`, the most negative finite double,
exactly `-(2^1024 - 2^971)` (written out as a literal so that concrete runs
evaluate without deep exponentiation unfolding). -/
def DBL_LOWEST : ℚ := -(179769313486231570814527423731704356798070567525844996598917476803157260780028538760589558632766878171540458953514382464234321326889464182768467546703537516986049910576551282076245490090389328944075868508455133942304583236903222948165808559332123348274797826204144723168738177180919299881250404026184124858368 : ℤ)

/-- IEEE `sqrt`: NaN on negative arguments (including -inf); `rsqrt` gives the
finite nonnegative-domain behaviour. -/
def FP.sqrt (rsqrt : ℚ → ℚ) : FP → FP
  | .fin x => if x < 0 then .nan else .fin (rsqrt x)
  | .posInf => .posInf
  | .negInf => .nan
  | .nan => .nan

/-- IEEE `log`: `log 0 = -inf`, NaN on negative arguments; `rlog` gives the
finite positive-domain behaviour. -/
def FP.log (rlog : ℚ → ℚ) : FP → FP
  | .fin x => if x < 0 then .nan else if x = 0 then .negInf else .fin (rlog x)
  | .posInf => .posInf
  | .negInf => .nan
  | .nan => .nan

/-- IEEE addition on `FP`. -/
def FP.add : FP → FP → FP
  | .nan, _ => .nan
  | _, .nan => .nan
  | .fin x, .fin y => .fin (x + y)
  | .posInf, .negInf => .nan
  | .negInf, .posInf => .nan
  | .posInf, _ => .posInf
  | _, .posInf => .posInf
  | .negInf, _ => .negInf
  | _, .negInf => .negInf

/-- IEEE multiplication on `FP` (`0 * inf = NaN`). -/
def FP.mul : FP → FP → FP
  | .nan, _ => .nan
  | _, .nan => .nan
  | .fin x, .fin y => .fin (x * y)
  | .fin x, .posInf => if x = 0 then .nan else if x < 0 then .negInf else .posInf
  | .fin x, .negInf => if x = 0 then .nan else if x < 0 then .posInf else .negInf
  | .posInf, .fin y => if y = 0 then .nan else if y < 0 then .negInf else .posInf
  | .negInf, .fin y => if y = 0 then .nan else if y < 0 then .posInf else .negInf
  | .posInf, .posInf => .posInf
  | .posInf, .negInf => .negInf
  | .negInf, .posInf => .negInf
  | .negInf, .negInf => .posInf

/-- IEEE division on `FP` (`0/0`, `inf/inf` are NaN; `x/0 = ±inf` for finite
nonzero `x`; signed zeros are not tracked, `x/±inf = 0`). -/
def FP.div : FP → FP → FP
  | .nan, _ => .nan
  | _, .nan => .nan
  | .fin x, .fin y =>
      if y = 0 then (if x = 0 then .nan else if x < 0 then .negInf else .posInf)
      else .fin (x / y)
  | .fin _, .posInf => .fin 0
  | .fin _, .negInf => .fin 0
  | .posInf, .fin y => if y < 0 then .negInf else .posInf
  | .negInf, .fin y => if y < 0 then .posInf else .negInf
  | .posInf, .posInf => .nan
  | .posInf, .negInf => .nan
  | .negInf, .posInf => .nan
  | .negInf, .negInf => .nan

/-- IEEE `>=` comparison as a Bool: any comparison against NaN is false. -/
def FP.geB : FP → FP → Bool
  | .nan, _ => false
  | _, .nan => false
  | .fin x, .fin y => decide (y ≤ x)
  | .posInf, _ => true
  | _, .posInf => false
  | _, .negInf => true
  | .negInf, _ => false

/-- IEEE `>` comparison as a Bool: any comparison against NaN is false. -/
def FP.gtB : FP → FP → Bool
  | .nan, _ => false
  | _, .nan => false
  | .fin x, .fin y => decide (y < x)
  | .posInf, .posInf => false
  | .posInf, _ => true
  | _, .posInf => false
  | .negInf, _ => false
  | _, .negInf => true

/-- The game-state capability `G` of `mcts.hpp` (§ "template <typename G>"):
move generation, terminal detection, heuristic evaluation, move text. -/
structure Game (S : Type) where
  is_terminal : S → Bool
  get_terminal_eval : S → ℚ
  check_non_terminal_eval : S → Option ℚ
  get_non_terminal_rank : S → ℤ
  get_legal_moves : S → List S
  evalFn : S → List S → ℚ × List ℚ
  get_action_text : S → Bool → String

/-- `mcts::uct_node<G>`: the C++ `double eval_Q` sentinel
(`numeric_limits<double>::lowest()` meaning "not evaluated") is rendered as
`Option ℚ` with `none` for the sentinel; `children` are owned subtrees; the
non-owning `parent` pointer is not stored (see the module comment). -/
inductive UctNode (S : Type) : Type where
  | mk (state : S) (Q_sum : ℚ) (eval_Q : Option ℚ) (visit_count : ℕ)
      (all_children_evaluated : Bool) (eval_probs : List ℚ)
      (children : List (UctNode S))

def UctNode.state {S : Type} : UctNode S → S
  | .mk s _ _ _ _ _ _ => s

def UctNode.Q_sum {S : Type} : UctNode S → ℚ
  | .mk _ q _ _ _ _ _ => q

def UctNode.eval_Q {S : Type} : UctNode S → Option ℚ
  | .mk _ _ e _ _ _ _ => e

def UctNode.visit_count {S : Type} : UctNode S → ℕ
  | .mk _ _ _ v _ _ _ => v

def UctNode.all_children_evaluated {S : Type} : UctNode S → Bool
  | .mk _ _ _ _ a _ _ => a

def UctNode.eval_probs {S : Type} : UctNode S → List ℚ
  | .mk _ _ _ _ _ p _ => p

def UctNode.children {S : Type} : UctNode S → List (UctNode S)
  | .mk _ _ _ _ _ _ c => c

/-- Rebuild a node with new children (the other fields unchanged). -/
def UctNode.setChildren {S : Type} : UctNode S → List (UctNode S) → UctNode S
  | .mk s q e v a p _, c => .mk s q e v a p c

/-- Rebuild a node with a new evaluation (the other fields unchanged). -/
def UctNode.setEval {S : Type} : UctNode S → ℚ → UctNode S
  | .mk s q _ v a p c, e => .mk s q (some e) v a p c

/-- Rebuild a node with new `eval_probs` (the other fields unchanged). -/
def UctNode.setProbs {S : Type} : UctNode S → List ℚ → UctNode S
  | .mk s q e v a _ c, p => .mk s q e v a p c

/-- Rebuild a node with `all_children_evaluated` set. -/
def UctNode.setAllEvaluated {S : Type} : UctNode S → UctNode S
  | .mk s q e v _ p c => .mk s q e v true p c

/-- Record one backprop contribution: `Q_sum += d`, `visit_count += 1`
(the two statements in the body of `uct_node::backprop`'s while loop). -/
def UctNode.bump {S : Type} : UctNode S → ℚ → UctNode S
  | .mk s q e v a p c, d => .mk s (q + d) e (v + 1) a p c

/-- `uct_node(G && input, parent)`: a freshly constructed node (`Set_Null`). -/
def newNode {S : Type} (s : S) : UctNode S :=
  .mk s 0 none 0 false [] []

/-- `uct_node::is_evaluated`: `eval_Q > numeric_limits<double>::lowest()`,
i.e. the sentinel has been replaced. -/
def UctNode.isEvaluated {S : Type} (n : UctNode S) : Bool :=
  n.eval_Q.isSome

/-- `uct_node::get_children`: lazily materialize children from
`state.get_legal_moves(*this)` (one `emplace_back` per successor) if the
child vector is empty; otherwise return it as is. -/
def getChildren {S : Type} (g : Game S) (n : UctNode S) : UctNode S :=
  if n.children.isEmpty then n.setChildren ((g.get_legal_moves n.state).map newNode)
  else n

/-- `uct_node::get_equity`: `Q_sum / visit_count` when there are visits, else
`eval_Q`; errors when unevaluated, and errors when the result leaves
`[-1, 1]` (the C++ message interpolates `Q_sum`, `visit_count`, `eval_Q`;
a fixed message stands in for it here). -/
def getEquity {S : Type} (n : UctNode S) : Except String ℚ :=
  match n.eval_Q with
  | none => .error "Error: cannot get equity without evaluation"
  | some e =>
      let equity : ℚ := if n.visit_count > 0 then n.Q_sum / (n.visit_count : ℚ) else e
      if equity < -1 ∨ equity > 1 then .error "InvariantBroken: equity outside unit interval"
      else .ok equity

/-- `uct_node::check_non_terminal_eval` (the const query overload). -/
def checkNte {S : Type} (g : Game S) (n : UctNode S) : Bool :=
  (g.check_non_terminal_eval n.state).isSome

/-- `(size_t)(u * n)`: the C++ double-to-`size_t` conversion of a nonnegative
product truncates toward zero. -/
def toIndex (u : ℚ) (n : ℕ) : ℕ :=
  (Rat.floor (u * (n : ℚ))).toNat

/-- `uct_node::make_move(choice)`: bounds-check, `orphan` the chosen child
(severing its parent pointer; in this embedding the child subtree is returned
as a standalone root), and return it. -/
def makeMove {S : Type} (g : Game S) (n : UctNode S) (choice : ℕ) :
    Except String (UctNode S) :=
  let n' := getChildren g n
  match n'.children[choice]? with
  | none => .error "Error: invalid move chosen."
  | some c => .ok c

/-- The child-scan loop of `uct_node::set_state`: first index whose state
equals `input` (the C++ `for` loop over `_children`). -/
def findChildIdx {S : Type} [DecidableEq S] (input : S) :
    List (UctNode S) → ℕ → Option ℕ
  | [], _ => none
  | c :: rest, i => if input = c.state then some i else findChildIdx input rest (i + 1)

/-- `uct_node::set_state(input, output)`: returns `none` (output untouched)
when `input` is the current state; returns the matching child via
`make_move` otherwise; errors when no child matches.  The line constructing
a fresh root from `input` is dead code after the unconditional `throw`. -/
def setState {S : Type} [DecidableEq S] (g : Game S) (n : UctNode S) (input : S) :
    Except String (Option (UctNode S)) :=
  if input = n.state then .ok none
  else
    let n' := getChildren g n
    match findChildIdx input n'.children 0 with
    | some i => (makeMove g n' i).map some
    | none => .error "Unable to find state in child node."

/-- The loop body count of `mcts::rollout<G>::operator()`. -/
def MAX_ROLLOUT_ITERS : ℕ := 10000

/-- The iteration of `mcts::rollout<G>::operator()`: play uniformly random
legal moves until terminal or a non-terminal exact eval, tracking whose turn
it is; report the value from the initial side-to-move's perspective; error
after `MAX_ROLLOUT_ITERS` iterations.  Returns the value and the advanced
rand counter. -/
def rolloutLoop {S : Type} (g : Game S) (rand : ℕ → ℚ) :
    ℕ → S → Bool → ℕ → Except String (ℚ × ℕ)
  | 0, _, _, _ =>
      .error "Error: mcts::rollout MAX_ITERATIONS reached without end of episode."
  | fuel + 1, s, heroTurn, k =>
      if g.is_terminal s then
        .ok ((if heroTurn then (1 : ℚ) else -1) * g.get_terminal_eval s, k)
      else
        match g.check_non_terminal_eval s with
        | some e => .ok ((if heroTurn then (1 : ℚ) else -1) * e, k)
        | none =>
            let actions := g.get_legal_moves s
            let idx := toIndex (rand k) actions.length
            match actions[idx]? with
            | none => .error "UB: vector index out of range"
            | some s' => rolloutLoop g rand fuel s' (!heroTurn) (k + 1)

/-- `mcts::rollout<G>::operator()(state, rand)`. -/
def rollout {S : Type} (g : Game S) (rand : ℕ → ℚ) (s : S) (k : ℕ) :
    Except String (ℚ × ℕ) :=
  rolloutLoop g rand MAX_ROLLOUT_ITERS s true k

/-- The body of `uct_node::eval` without the `eval_children` pass: resolve
`eval_Q` in priority order (terminal eval / non-terminal exact eval / rollout
/ bespoke `state.eval`), erroring on an already-evaluated node.  Returns the
updated node, the `truncate` flag, and the rand counter.  The C++ `assert` on
`eval_probs.size()` is modelled as an error. -/
def evalCore {S : Type} (g : Game S) (rand : ℕ → ℚ) (useRollout : Bool)
    (n : UctNode S) (k : ℕ) : Except String (UctNode S × Bool × ℕ) :=
  if n.isEvaluated then .error "Error: calling eval when already evaluated"
  else if g.is_terminal n.state then
    .ok (n.setEval (g.get_terminal_eval n.state), true, k)
  else
    match g.check_non_terminal_eval n.state with
    | some e => .ok (n.setEval e, true, k)
    | none =>
        if useRollout then
          match rollout g rand n.state k with
          | .error msg => .error msg
          | .ok (q, k') => .ok (n.setEval q, false, k')
        else
          let n' := getChildren g n
          let qp := g.evalFn n'.state (n'.children.map UctNode.state)
          if qp.2.length ≠ 0 ∧ qp.2.length ≠ n'.children.length then
            .error "assert failed: eval_probs size mismatch"
          else .ok ((n'.setEval qp.1).setProbs qp.2, false, k)

/-- The `eval_children` pass of `uct_node::eval`: evaluate each child in
order with `eval_children = false` (one ply only), threading the rand
counter. -/
def evalChildrenList {S : Type} (g : Game S) (rand : ℕ → ℚ) (useRollout : Bool) :
    List (UctNode S) → ℕ → Except String (List (UctNode S) × ℕ)
  | [], k => .ok ([], k)
  | c :: rest, k =>
      match evalCore g rand useRollout c k with
      | .error msg => .error msg
      | .ok (c', _, k') =>
          match evalChildrenList g rand useRollout rest k' with
          | .error msg => .error msg
          | .ok (rest', k'') => .ok (c' :: rest', k'')

/-- `uct_node::eval(rand, use_rollout, eval_children)`: `evalCore`, then, if
`eval_children` is set and the node was not truncated, evaluate every child
and set `all_children_evaluated`. -/
def evalNode {S : Type} (g : Game S) (rand : ℕ → ℚ) (useRollout evalChildren : Bool)
    (n : UctNode S) (k : ℕ) : Except String (UctNode S × ℕ) :=
  match evalCore g rand useRollout n k with
  | .error msg => .error msg
  | .ok (n1, truncate, k1) =>
      if evalChildren && !truncate then
        let n2 := getChildren g n1
        match evalChildrenList g rand useRollout n2.children k1 with
        | .error msg => .error msg
        | .ok (cs', k2) => .ok ((n2.setChildren cs').setAllEvaluated, k2)
      else .ok (n1, k1)

/-- The exploration term of the score computed for child `i` in
`uct_node::select` (the `U` of lines computing `sqrt(N)/(1+n)` for PUCT and
`sqrt(log(N)/max(n,1))` for UCT), in IEEE arithmetic. -/
def baseU (rsqrt rlog : ℚ → ℚ) (usePuct : Bool) (N n : ℚ) : FP :=
  if usePuct then FP.div (FP.sqrt rsqrt (.fin N)) (.fin (1 + n))
  else FP.sqrt rsqrt (FP.div (FP.log rlog (.fin N)) (.fin (max n 1)))

/-- The per-child score of `uct_node::select` under `all_children_evaluated`:
`Q = -child.get_equity()`, `N = parent.visit_count - 1`,
`n = child.visit_count`, `U` as in `baseU`, multiplied by
`parent.eval_probs[i]` when `use_probs` (an out-of-range access is UB),
score `Q + c * U`. -/
def childScore {S : Type} (rsqrt rlog : ℚ → ℚ) (c : ℚ) (usePuct useProbs : Bool)
    (parentVisit : ℕ) (probs : List ℚ) (i : ℕ) (child : UctNode S) :
    Except String FP :=
  match getEquity child with
  | .error msg => .error msg
  | .ok q =>
      let Q : FP := .fin (-q)
      let N : ℚ := (parentVisit : ℚ) - 1
      let nv : ℚ := (child.visit_count : ℚ)
      let U0 : FP := baseU rsqrt rlog usePuct N nv
      match (if useProbs then
              match probs[i]? with
              | some p => Except.ok (FP.mul U0 (.fin p))
              | none => Except.error "UB: vector index out of range"
             else Except.ok U0 : Except String FP) with
      | .error msg => .error msg
      | .ok U => .ok (FP.add Q (FP.mul (.fin c) U))

/-- The scores of all children in order (the score part of the
`all_children_evaluated` loop of `uct_node::select`; the first `get_equity`
failure aborts, as the C++ throw does). -/
def childScores {S : Type} (rsqrt rlog : ℚ → ℚ) (c : ℚ) (usePuct useProbs : Bool)
    (parentVisit : ℕ) (probs : List ℚ) :
    List (UctNode S) → ℕ → Except String (List FP)
  | [], _ => .ok []
  | ch :: rest, i =>
      match childScore rsqrt rlog c usePuct useProbs parentVisit probs i ch with
      | .error msg => .error msg
      | .ok s =>
          match childScores rsqrt rlog c usePuct useProbs parentVisit probs rest (i + 1) with
          | .error msg => .error msg
          | .ok ss => .ok (s :: ss)

/-- The max-tracking loop of `uct_node::select` over the child scores:
`if (curr >= max) { if (curr > max) { best_actions.clear(); max = curr; }
best_actions.push_back(i); }` with IEEE comparisons (NaN compares false). -/
def bestActionsGo : List FP → ℕ → FP → List ℕ → List ℕ
  | [], _, _, queue => queue
  | s :: rest, i, maxUct, queue =>
      if FP.geB s maxUct then
        if FP.gtB s maxUct then bestActionsGo rest (i + 1) s [i]
        else bestActionsGo rest (i + 1) maxUct (queue ++ [i])
      else bestActionsGo rest (i + 1) maxUct queue

/-- The `best_actions` queue produced by the `all_children_evaluated` loop of
`uct_node::select`, starting from `max_uct = numeric_limits<double>::lowest()`. -/
def bestActionsFold (scores : List FP) : List ℕ :=
  bestActionsGo scores 0 (.fin DBL_LOWEST) []

/-- Look a node up by a root-to-node path of child indices. -/
def getAt {S : Type} : UctNode S → List ℕ → Option (UctNode S)
  | n, [] => some n
  | n, i :: rest =>
      match n.children[i]? with
      | none => none
      | some c => getAt c rest

/-- Replace the node at a path (the path must exist). -/
def setAt {S : Type} : UctNode S → List ℕ → UctNode S → Option (UctNode S)
  | _, [], m => some m
  | n, i :: rest, m =>
      match n.children[i]? with
      | none => none
      | some c =>
          match setAt c rest m with
          | none => none
          | some c' => some (n.setChildren (n.children.set i c'))

/-- The first stage of one `uct_node::select` iteration (the
`!all_children_evaluated` branch): collect unexplored children; pick one at
random if any exist (one draw when there is more than one), otherwise set the
flag and fall through.  Returns the possibly updated node, the picked index
if any, and the rand counter. -/
def selectUnexplored {S : Type} (rand : ℕ → ℚ) (n : UctNode S) (k : ℕ) :
    Except String (UctNode S × Option ℕ × ℕ) :=
  if !n.all_children_evaluated then
    let unexplored := (List.range n.children.length).filter
      (fun i => !((n.children[i]?.map UctNode.isEvaluated).getD true))
    if unexplored.length > 0 then
      if unexplored.length > 1 then
        match unexplored[toIndex (rand k) unexplored.length]? with
        | none => .error "UB: vector index out of range"
        | some b => .ok (n, some b, k + 1)
      else
        match unexplored[0]? with
        | none => .error "UB: vector index out of range"
        | some b => .ok (n, some b, k)
    else .ok (n.setAllEvaluated, none, k)
  else .ok (n, none, k)

/-- The second stage of one `uct_node::select` iteration (the
`all_children_evaluated` branch): score every child, track the running
maximum and the tied-best queue, pick from the queue (one draw when it has
more than one entry; `best_actions[0]` on an empty queue — possible when
every score is NaN — is UB). -/
def selectScored {S : Type} (rsqrt rlog : ℚ → ℚ) (c : ℚ) (rand : ℕ → ℚ)
    (usePuct useProbs : Bool) (n : UctNode S) (k : ℕ) :
    Except String (ℕ × ℕ) :=
  match childScores rsqrt rlog c usePuct useProbs n.visit_count n.eval_probs
      n.children 0 with
  | .error msg => .error msg
  | .ok scores =>
      let best := bestActionsFold scores
      if best.length > 1 then
        match best[toIndex (rand k) best.length]? with
        | none => .error "UB: vector index out of range"
        | some b => .ok (b, k + 1)
      else
        match best[0]? with
        | none => .error "UB: vector index out of range"
        | some b => .ok (b, k)

/-- One iteration of the do-while loop of `uct_node::select` on the current
node: materialize children, reject an empty child vector, run the two
stages, bounds-check the chosen index, and return the updated node, the
chosen index, and the rand counter. -/
def selectIter {S : Type} (g : Game S) (rsqrt rlog : ℚ → ℚ) (c : ℚ)
    (rand : ℕ → ℚ) (usePuct useProbs : Bool) (n : UctNode S) (k : ℕ) :
    Except String (UctNode S × ℕ × ℕ) :=
  let n0 := getChildren g n
  if n0.children.isEmpty then
    .error "Error: select encountered empty child vector, this should not happen. Check continuation condition"
  else
    match selectUnexplored rand n0 k with
    | .error msg => .error msg
    | .ok (n1, pick, k1) =>
        match (if n1.all_children_evaluated then
                selectScored rsqrt rlog c rand usePuct useProbs n1 k1
               else
                match pick with
                | some b => Except.ok (b, k1)
                | none => Except.error "Error: failed to select node"
               : Except String (ℕ × ℕ)) with
        | .error msg => .error msg
        | .ok (best, k2) =>
            if best < n1.children.length then .ok (n1, best, k2)
            else .error "error: bounds violation on curr_children."

/-- `uct_node::select`: iterate `selectIter`, descending into the chosen
child while it is evaluated, non-terminal and without a non-terminal exact
eval.  The C++ loop terminates because every iteration descends one level
into a finite tree; the embedding makes that explicit with fuel (any fuel at
least the tree depth gives the C++ behaviour; `simulate` passes `treeSize` of
the tree, which bounds its depth).  Returns the updated tree, the
root-to-leaf path, and the rand counter. -/
def selectFuel {S : Type} (g : Game S) (rsqrt rlog : ℚ → ℚ) (c : ℚ)
    (rand : ℕ → ℚ) (usePuct useProbs : Bool) :
    ℕ → UctNode S → ℕ → Except String (UctNode S × List ℕ × ℕ)
  | 0, _, _ => .error "select: fuel exhausted"
  | fuel + 1, n, k =>
      match selectIter g rsqrt rlog c rand usePuct useProbs n k with
      | .error msg => .error msg
      | .ok (n1, best, k1) =>
          match n1.children[best]? with
          | none => .error "error: null pointer!"
          | some child =>
              if child.isEvaluated && !g.is_terminal child.state && !checkNte g child then
                match selectFuel g rsqrt rlog c rand usePuct useProbs fuel child k1 with
                | .error msg => .error msg
                | .ok (child', path, k2) =>
                    .ok (n1.setChildren (n1.children.set best child'), best :: path, k2)
              else .ok (n1, [best], k1)

/-- The climb of `uct_node::backprop` rendered top-down along the
root-to-leaf path: every node on the path gets `Q_sum += s * eval_Q` and
`visit_count += 1`, where the sign `s` is `+1` at the leaf and alternates
upward (so at distance `d` above the leaf it is `(-1)^d`). -/
def backpropGo {S : Type} (q : ℚ) : UctNode S → List ℕ → Option (UctNode S)
  | n, [] => some (n.bump q)
  | n, i :: rest =>
      match n.children[i]? with
      | none => none
      | some c =>
          match backpropGo q c rest with
          | none => none
          | some c' =>
              let sign : ℚ := if (rest.length + 1) % 2 = 0 then 1 else -1
              some ((n.bump (sign * q)).setChildren (n.children.set i c'))

/-- `uct_node::backprop` called on the leaf at `path`: check the leaf
preconditions (evaluated; no prior visits unless terminal or exact-eval),
then walk the contribution up to the subtree root (null parent). -/
def backprop {S : Type} (g : Game S) (n : UctNode S) (path : List ℕ) :
    Except String (UctNode S) :=
  match getAt n path with
  | none => .error "internal: invalid path"
  | some leaf =>
      match leaf.eval_Q with
      | none => .error "Error: cannot backprop without an evaluation"
      | some q =>
          if leaf.visit_count > 0 && !g.is_terminal leaf.state && !checkNte g leaf then
            .error "Error: cannot backprop from a node with visits that is not terminal"
          else
            match backpropGo q n path with
            | none => .error "internal: invalid path"
            | some n' => .ok n'

mutual

/-- Total node count of a tree (used as select fuel: it bounds the depth). -/
def treeSize {S : Type} : UctNode S → ℕ
  | .mk _ _ _ _ _ _ c => 1 + treeSizeL c

/-- Total node count of a list of trees. -/
def treeSizeL {S : Type} : List (UctNode S) → ℕ
  | [] => 0
  | x :: xs => treeSize x + treeSizeL xs

end

/-- One playout of the loop body of `uct_node::simulate`: select a leaf,
evaluate it if unevaluated (erroring when an evaluated non-terminal,
non-exact-eval node was selected), then backprop from it. -/
def simStep {S : Type} (g : Game S) (rsqrt rlog : ℚ → ℚ) (c : ℚ) (rand : ℕ → ℚ)
    (useRollout evalChildren usePuct useProbs : Bool) (n : UctNode S) (k : ℕ) :
    Except String (UctNode S × ℕ) :=
  match selectFuel g rsqrt rlog c rand usePuct useProbs (treeSize n) n k with
  | .error msg => .error msg
  | .ok (n1, path, k1) =>
      match getAt n1 path with
      | none => .error "internal: invalid path"
      | some leaf =>
          if !leaf.isEvaluated then
            match evalNode g rand useRollout evalChildren leaf k1 with
            | .error msg => .error msg
            | .ok (leaf', k2) =>
                match setAt n1 path leaf' with
                | none => .error "internal: invalid path"
                | some n2 => backprop g n2 path |>.map (fun t => (t, k2))
          else
            if !g.is_terminal leaf.state && !checkNte g leaf then
              .error "Error: we have selected a node that is already evaluated, and is not terminal or nte"
            else backprop g n1 path |>.map (fun t => (t, k1))

/-- The `for` loop of `uct_node::simulate`: run `sims` playouts. -/
def simLoop {S : Type} (g : Game S) (rsqrt rlog : ℚ → ℚ) (c : ℚ) (rand : ℕ → ℚ)
    (useRollout evalChildren usePuct useProbs : Bool) :
    ℕ → UctNode S → ℕ → Except String (UctNode S × ℕ)
  | 0, n, k => .ok (n, k)
  | sims + 1, n, k =>
      match simStep g rsqrt rlog c rand useRollout evalChildren usePuct useProbs n k with
      | .error msg => .error msg
      | .ok (n1, k1) =>
          simLoop g rsqrt rlog c rand useRollout evalChildren usePuct useProbs sims n1 k1

/-- `uct_node::simulate(simulations, rand, c, use_rollout, eval_children,
use_puct, use_probs)`: materialize the root's children, reject a childless or
terminal root, evaluate the root if unevaluated (note: no backprop of that
evaluation), then run the playouts. -/
def simulate {S : Type} (g : Game S) (rsqrt rlog : ℚ → ℚ) (c : ℚ) (rand : ℕ → ℚ)
    (useRollout evalChildren usePuct useProbs : Bool) (sims : ℕ)
    (n : UctNode S) (k : ℕ) : Except String (UctNode S × ℕ) :=
  let n0 := getChildren g n
  if n0.children.isEmpty || g.is_terminal n0.state then
    .error "Error: cannot simulate from a terminal state"
  else
    match (if !n0.isEvaluated then evalNode g rand useRollout evalChildren n0 k
           else Except.ok (n0, k) : Except String (UctNode S × ℕ)) with
    | .error msg => .error msg
    | .ok (n1, k1) =>
        simLoop g rsqrt rlog c rand useRollout evalChildren usePuct useProbs sims n1 k1

/-- `std::numeric_limits<int>::max()`, the start value of the minimum-rank
scan in `choose_best_action`. -/
def INT_MAX : ℤ := 2 ^ 31 - 1

/-- The winning-move scan of `uct_node::choose_best_action`: indices of
children whose state is terminal and whose equity (from the child's own
perspective) is negative; `get_equity` is only invoked on terminal children
(the `&&` short-circuits) and its failure aborts the call. -/
def winningScan {S : Type} (g : Game S) :
    List (UctNode S) → ℕ → Except String (List ℕ)
  | [], _ => .ok []
  | c :: rest, i =>
      match (if g.is_terminal c.state then
              (getEquity c).map (fun q => q < 0)
             else Except.ok false : Except String Bool) with
      | .error msg => .error msg
      | .ok isWin =>
          match winningScan g rest (i + 1) with
          | .error msg => .error msg
          | .ok l => .ok (if isWin then i :: l else l)

/-- The minimum-`non_terminal_rank` scan of `uct_node::choose_best_action`
(used when the node itself has a non-terminal exact eval): strictly-smaller
rank wins, no random tie-break; `none` when no child beats `INT_MAX`. -/
def minRankScan {S : Type} (g : Game S) :
    List (UctNode S) → ℕ → ℤ → Option ℕ → Option ℕ
  | [], _, _, choice => choice
  | c :: rest, i, minRank, choice =>
      let r := g.get_non_terminal_rank c.state
      if r < minRank then minRankScan g rest (i + 1) r (some i)
      else minRankScan g rest (i + 1) minRank choice

/-- The `decide_using_visits` greedy scan of `uct_node::choose_best_action`:
running maximum of `visit_count` with clear-on-strict-improvement, so the
queue holds all indices tied for the maximum. -/
def visitsScan {S : Type} :
    List (UctNode S) → ℕ → ℕ → List ℕ → List ℕ
  | [], _, _, queue => queue
  | c :: rest, i, maxV, queue =>
      let curr := c.visit_count
      if curr ≥ maxV then
        if curr > maxV then visitsScan rest (i + 1) curr [i]
        else visitsScan rest (i + 1) maxV (queue ++ [i])
      else visitsScan rest (i + 1) maxV queue

/-- The equity greedy scan of `uct_node::choose_best_action`.  The C++ loop
body reads
`if (curr_Q >= max_Q) { if (curr_Q > max_Q) { choices_queue.clear();
curr_Q = max_Q; } choices_queue.push_back(i); }` —
the inner assignment writes the loop-local `curr_Q`, not `max_Q`, so `max_Q`
keeps its initial `numeric_limits<double>::lowest()` value throughout; the
embedding renders exactly that (the accumulator `maxQ` is never updated). -/
def equityScan {S : Type} :
    List (UctNode S) → ℕ → ℚ → List ℕ → Except String (List ℕ)
  | [], _, _, queue => .ok queue
  | c :: rest, i, maxQ, queue =>
      match getEquity c with
      | .error msg => .error msg
      | .ok q =>
          let currQ := -q
          if currQ ≥ maxQ then
            if currQ > maxQ then equityScan rest (i + 1) maxQ [i]
            else equityScan rest (i + 1) maxQ (queue ++ [i])
          else equityScan rest (i + 1) maxQ queue

/-- The choice computation of `uct_node::choose_best_action` (everything up
to and including the `choice == SIZE_MAX` check, before `make_move`): the
four-tier policy.  Tier 1 (winning terminal children) picks
`winning_moves[(size_t)(unif(rand) + winning_moves.size())]` when there is
more than one winner — note the `+` where every other call site scales with
`*`; for `u ∈ [0,1)` the index is always `winning_moves.size()`, out of
bounds.  Returns the materialized node, the chosen index and the rand
counter. -/
def chooseBestActionIdx {S : Type} (g : Game S) (rand : ℕ → ℚ) (epsilon : ℚ)
    (decideUsingVisits : Bool) (n : UctNode S) (k : ℕ) :
    Except String (UctNode S × ℕ × ℕ) :=
  if epsilon < 0 ∨ epsilon > 1 then
    .error "Error: improper use of choose_best_action. Check arguments."
  else
    let n' := getChildren g n
    let cs := n'.children
    if cs.length = 0 then .error "Error: no legal moves!"
    else
      match winningScan g cs 0 with
      | .error msg => .error msg
      | .ok winning =>
          if winning.length > 0 then
            if winning.length > 1 then
              match winning[(Rat.floor (rand k + (winning.length : ℚ))).toNat]? with
              | none => .error "UB: vector index out of range"
              | some i => .ok (n', i, k + 1)
            else
              match winning[0]? with
              | none => .error "UB: vector index out of range"
              | some i => .ok (n', i, k)
          else if checkNte g n' then
            match minRankScan g cs 0 INT_MAX none with
            | some i => .ok (n', i, k)
            | none => .error "Error: unable to find a choice"
          else
            let (greedy, k1) :=
              if epsilon > 0 then (!(decide (rand k < epsilon)), k + 1) else (true, k)
            if greedy then
              match (if decideUsingVisits then Except.ok (visitsScan cs 0 0 [])
                     else equityScan cs 0 DBL_LOWEST [] : Except String (List ℕ)) with
              | .error msg => .error msg
              | .ok queue =>
                  if queue.length > 1 then
                    match queue[toIndex (rand k1) queue.length]? with
                    | none => .error "UB: vector index out of range"
                    | some i => .ok (n', i, k1 + 1)
                  else
                    match queue[0]? with
                    | none => .error "UB: vector index out of range"
                    | some i => .ok (n', i, k1)
            else .ok (n', toIndex (rand k1) cs.length, k1 + 1)

/-- `uct_node::choose_best_action`: compute the choice, `make_move` to it,
then run the post-condition check (a non-terminal new root with no children
is an invariant violation; the check itself materializes the new root's
children). -/
def chooseBestAction {S : Type} (g : Game S) (rand : ℕ → ℚ) (epsilon : ℚ)
    (decideUsingVisits : Bool) (n : UctNode S) (k : ℕ) :
    Except String (UctNode S × ℕ) :=
  match chooseBestActionIdx g rand epsilon decideUsingVisits n k with
  | .error msg => .error msg
  | .ok (n', choice, k') =>
      match makeMove g n' choice with
      | .error msg => .error msg
      | .ok ret =>
          let ret' := getChildren g ret
          if ret'.children.isEmpty && !g.is_terminal ret'.state then
            .error "Error: position is not marked as terminal, but there are no children"
          else .ok (ret', k')

/-- The sort key built for one child in `uct_node::get_sorted_actions`:
`(equity, (double)non_terminal_rank, visit_count, action_text(flip))`, where
equity is `-get_equity()` for an evaluated child and
`numeric_limits<double>::lowest()` otherwise (`get_equity` on an evaluated
child can still fail its range check, which aborts the call). -/
def mk4 {S : Type} (g : Game S) (flip : Bool) (c : UctNode S) :
    Except String (ℚ × ℚ × ℕ × String) :=
  match (if c.isEvaluated then (getEquity c).map (fun q => -q)
         else Except.ok DBL_LOWEST : Except String ℚ) with
  | .error msg => .error msg
  | .ok equity =>
      .ok (equity, ((g.get_non_terminal_rank c.state : ℤ) : ℚ), c.visit_count,
           g.get_action_text c.state flip)

/-- Sequential `Except`-valued map (the per-child loop building the sort
keys; the first failure aborts, as the C++ throw does). -/
def mapME {α β : Type} (f : α → Except String β) : List α → Except String (List β)
  | [] => .ok []
  | a :: rest =>
      match f a with
      | .error msg => .error msg
      | .ok b =>
          match mapME f rest with
          | .error msg => .error msg
          | .ok bs => .ok (b :: bs)

/-- The lexicographic order of `std::tuple::operator<` on the 4-tuples, as a
linear-order key. -/
def key4 (m : ℚ × ℚ × ℕ × String) : ℚ ×ₗ (ℚ ×ₗ (ℕ ×ₗ String)) :=
  toLex (m.1, toLex (m.2.1, toLex (m.2.2.1, m.2.2.2)))

/-- The descending order `std::sort(moves.rbegin(), moves.rend())` sorts by:
later elements are no greater. -/
def ge4 (a b : ℚ × ℚ × ℕ × String) : Prop :=
  key4 b ≤ key4 a

instance : DecidableRel ge4 := fun a b => inferInstanceAs (Decidable (key4 b ≤ key4 a))

instance : IsTotal (ℚ × ℚ × ℕ × String) ge4 :=
  ⟨fun a b => le_total (key4 b) (key4 a)⟩

instance : IsTrans (ℚ × ℚ × ℕ × String) ge4 :=
  ⟨fun _ _ _ h1 h2 => le_trans h2 h1⟩

/-- The projection from the 4-tuple sort key to the reported 3-tuple
`(visit_count, equity, action_text)`. -/
def proj3 (m : ℚ × ℚ × ℕ × String) : ℕ × ℚ × String :=
  (m.2.2.1, m.1, m.2.2.2)

/-- `uct_node::get_sorted_actions(flip)`: materialize children, build one
4-tuple per child, sort descending (`std::sort` on reversed iterators with
the tuple lexicographic order; `std::sort` guarantees a sorted permutation),
project to `(visit_count, equity, action_text)`.  Returns the materialized
node and the list. -/
def getSortedActions {S : Type} (g : Game S) (flip : Bool) (n : UctNode S) :
    Except String (UctNode S × List (ℕ × ℚ × String)) :=
  let n' := getChildren g n
  match mapME (mk4 g flip) n'.children with
  | .error msg => .error msg
  | .ok moves => .ok (n', (List.insertionSort ge4 moves).map proj3)

/-- `threaded_tree::run_simulation` (minus the lock): one `simulate(1, ...)`
call on the tree with every failure caught and swallowed, leaving the tree
as the failed call left it — in this pure model a failed `simulate` returns
no tree, so the pre-call tree stands in for it; the claim-relevant content
is that the error never escapes. -/
def run_simulation {α : Type} (step : α → Except String α) (tree : α) : α :=
  match step tree with
  | .ok t => t
  | .error _ => tree

/-- One iteration of the inner `for` loop of `threaded_tree::worker_thread`:
`run_simulation(); target_sims_.fetch_sub(1);` — the decrement runs
unconditionally because `run_simulation` has already swallowed any error. -/
def workerLoopBody {α : Type} (step : α → Except String α) (tree : α)
    (target : ℕ) : α × ℕ :=
  (run_simulation step tree, target - 1)

/-- The inner `for` loop of `threaded_tree::worker_thread`: up to
`simsToRun` iterations, stopping early when `target_sims` hits zero (the
stop flag is not modelled; it is never set during a run). -/
def workerRunBatch {α : Type} (step : α → Except String α) :
    ℕ → α → ℕ → α × ℕ
  | 0, tree, target => (tree, target)
  | i + 1, tree, target =>
      if target > 0 then
        let (tree', target') := workerLoopBody step tree target
        workerRunBatch step i tree' target'
      else (tree, target)

/-- `threaded_tree::get_evaluation`: `tree_->get_equity()` with every failure
mapped to `0.0`. -/
def threadedGetEvaluation {S : Type} (n : UctNode S) : ℚ :=
  match getEquity n with
  | .ok q => q
  | .error _ => 0

/-- `corridors_mcts_pybind11::get_evaluation`: read the driver evaluation,
list the sorted actions, then trust the evaluation except when it is exactly
`±1.0` while more than 80 actions are available (`none`); an empty action
list means the game is over and the evaluation is trusted. -/
def bindingGetEvaluation {S : Type} (g : Game S) (n : UctNode S) :
    Except String (Option ℚ) :=
  let ev := threadedGetEvaluation n
  match getSortedActions g false n with
  | .error msg => .error msg
  | .ok (_, actions) =>
      if actions.isEmpty then .ok (some ev)
      else if (ev = 1 ∨ ev = -1) ∧ actions.length > 80 then .ok none
      else .ok (some ev)

/-- A rand stream that always draws `0` (a legal value of
`uniform_real_distribution<double>(0.0, 1.0)`). -/
def rand0 : ℕ → ℚ := fun _ => 0

/-- A two-move game: state `0` has exactly the successors `1` and `2`, both
terminal with terminal value `-1` (a win for the mover into them). -/
def gameA : Game ℕ where
  is_terminal := fun s => decide (s ≠ 0)
  get_terminal_eval := fun _ => -1
  check_non_terminal_eval := fun _ => none
  get_non_terminal_rank := fun _ => 0
  get_legal_moves := fun s => if s = 0 then [1, 2] else []
  evalFn := fun _ _ => (0, [])
  get_action_text := fun s _ => toString s

/-- A four-level game for exercising `choose_best_action`: `0` has successors
`1` and `2` (both non-terminal, each with one further move), and `3`, `4` are
terminal. -/
def gameB : Game ℕ where
  is_terminal := fun s => decide (3 ≤ s)
  get_terminal_eval := fun _ => -1
  check_non_terminal_eval := fun _ => none
  get_non_terminal_rank := fun _ => 0
  get_legal_moves := fun s =>
    if s = 0 then [1, 2] else if s = 1 then [3] else if s = 2 then [4] else []
  evalFn := fun _ _ => (0, [])
  get_action_text := fun s _ => toString s

/-- A root with two evaluated non-terminal children: child `0` has equity
`-1/2` from its own perspective (so `+1/2` for the parent — the better
move), child `1` has equity `+1/2` (so `-1/2` for the parent). -/
def childB1 : UctNode ℕ := .mk 1 0 (some (-(1/2))) 0 false [] []

def childB2 : UctNode ℕ := .mk 2 0 (some (1/2)) 0 false [] []

def rootB : UctNode ℕ := .mk 0 0 (some 0) 0 false [] [childB1, childB2]

/-- A root whose two children are both terminal with equity `-1` from their
own perspective: two winning moves for the side to move at the root. -/
def childC1 : UctNode ℕ := .mk 1 0 (some (-1)) 0 false [] []

def childC2 : UctNode ℕ := .mk 2 0 (some (-1)) 0 false [] []

def rootC : UctNode ℕ := .mk 0 0 (some 0) 0 false [] [childC1, childC2]

/-- The exploration term as the spec words it (a second definition, written
from the spec for the refinement comparison, not from the code): `U = 0` when
`N = 0`, else `sqrt(N)/(1+n)` under PUCT and `sqrt(ln(N)/max(n,1))` under
UCT, multiplied by `eval_probs[i]` when `use_probs` is set and priors are
present. -/
def specU (rsqrt rlog : ℚ → ℚ) (usePuct : Bool) (N n : ℚ) (useProbs : Bool)
    (probs : List ℚ) (i : ℕ) : ℚ :=
  let U0 : ℚ :=
    if N = 0 then 0
    else if usePuct then rsqrt N / (1 + n) else rsqrt (rlog N / max n 1)
  if useProbs ∧ probs ≠ [] then U0 * (probs[i]?.getD 0) else U0

/-- The per-child selection score as the spec words it:
`-child.get_equity() + c * U` with `N = parent.visit_count - 1` and
`n = child.visit_count`. -/
def specChildScore (rsqrt rlog : ℚ → ℚ) (c : ℚ) (usePuct useProbs : Bool)
    (parentVisit : ℕ) (probs : List ℚ) (i : ℕ) (q n : ℚ) : ℚ :=
  -q + c * specU rsqrt rlog usePuct ((parentVisit : ℚ) - 1) n useProbs probs i

/-- An evaluated child with equity `0` and no visits. -/
def child4 : UctNode ℕ := .mk 0 0 (some 0) 0 false [] []

/-- Claim C6 helper: node `b` preserves the statistics of node `a` when every
path that exists in `a` still exists in `b` with the same `visit_count` and
`Q_sum` (new nodes may appear, e.g. by lazy child materialization). -/
def preserves {S : Type} (a b : UctNode S) : Prop :=
  ∀ (p : List ℕ) (x : UctNode S), getAt a p = some x →
    ∃ y, getAt b p = some y ∧ y.visit_count = x.visit_count ∧ y.Q_sum = x.Q_sum

-- ===== End of definitions; theorems follow. =====

theorem DBL_LOWEST_eq : DBL_LOWEST = -(2 ^ 1024 - 2 ^ 971) := by
  norm_num [DBL_LOWEST]

/-- Claim C1: the claim states that after `simulate(n)` from a fresh
non-terminal root with at least one legal child, the root's `visit_count` is
`n + 1`, the extra visit coming from the root self-backpropagating its first
evaluation before any selection.  In the code, `simulate` evaluates an
unevaluated root but never backpropagates that evaluation (no `backprop`
call outside the playout loop), so each of the `n` playouts contributes the
only visits the root gets: after `simulate(1)` from a fresh root of the
two-move game the root's `visit_count` is `1`, not `2`. -/
theorem C1_simulate_no_root_self_backprop :
    (simulate gameA id id 1 rand0 true false false false 1 (newNode 0) 0).map
      (fun r => r.1.visit_count) = .ok 1 ∧ (1 : ℕ) ≠ 1 + 1 := by
  constructor
  · decide
  · decide



/-- Claim C2: the claim states that the greedy branch of
`choose_best_action(rand, 0, decide_using_visits = false)` returns a child
of maximal `-child.get_equity()`.  The loop body assigns `curr_Q = max_Q`
instead of `max_Q = curr_Q`, so `max_Q` keeps its `lowest()` start value,
every child strictly beats it, the queue is cleared each iteration, and the
call always returns the last child: here child `1`, whose parent-perspective
equity `-1/2` is strictly below child `0`'s `+1/2`. -/
theorem C2_greedy_equity_picks_last_child :
    (chooseBestAction gameB rand0 0 false rootB 0).map (fun r => r.1.state) = .ok 2
    ∧ getEquity childB1 = .ok (-(1/2)) ∧ getEquity childB2 = .ok (1/2)
    ∧ (-(1/2) : ℚ) < 1/2 := by
  refine ⟨by decide, by decide, by decide, by decide⟩


/-- Claim C3: the claim states that with at least one winning terminal child
(terminal state, negative equity), `choose_best_action` returns one of the
winning children uniformly at random for every `ε ∈ [0, 1]`.  With *two*
winning children the code computes the index
`(size_t)(unif(rand) + winning_moves.size())`, which is `2` for every draw
in `[0, 1)` — one past the end of `winning_moves`, an out-of-bounds vector
access (UB), never a uniform choice among the winners. -/
theorem C3_two_winning_moves_out_of_bounds :
    (chooseBestActionIdx gameA rand0 (3/10) false rootC 0).map (fun r => r.2.1)
      = .error "UB: vector index out of range"
    ∧ gameA.is_terminal childC1.state = true ∧ getEquity childC1 = .ok (-1)
    ∧ gameA.is_terminal childC2.state = true ∧ getEquity childC2 = .ok (-1) := by
  refine ⟨by decide, by decide, by decide, by decide, by decide⟩

/-- Claim C4 helper: the membership characterization of the tied-best queue.
With an all-finite score list, starting the scan at index `i` with running
maximum `m` and queue `acc`, index `j` ends up in the final queue exactly
when it was already queued and nothing beats `m`, or it carries a score that
is at least `m` and maximal. -/
theorem bestActionsGo_mem (qs : List ℚ) :
    ∀ (i : ℕ) (m : ℚ) (acc : List ℕ) (j : ℕ),
      (j ∈ bestActionsGo (qs.map FP.fin) i (.fin m) acc ↔
        (j ∈ acc ∧ ∀ a ∈ qs, a ≤ m) ∨
        (∃ t a, qs[t]? = some a ∧ j = i + t ∧ m ≤ a ∧ ∀ b ∈ qs, b ≤ a)) := by
  induction qs with
  | nil => intro i m acc j; simp [bestActionsGo]
  | cons a rest ih =>
      intro i m acc j
      simp only [List.map_cons, bestActionsGo, FP.geB, FP.gtB]
      rcases lt_trichotomy m a with hlt | heq | hgt
      · rw [if_pos (decide_eq_true (le_of_lt hlt)), if_pos (decide_eq_true hlt), ih]
        constructor
        · rintro (⟨hj, hall⟩ | ⟨t, b, ht, hj, hab, hall⟩)
          · simp only [List.mem_singleton] at hj
            refine Or.inr ⟨0, a, by simp, by omega, le_of_lt hlt, ?_⟩
            intro b hb
            rcases List.mem_cons.mp hb with rfl | hb
            · exact le_refl b
            · exact hall b hb
          · refine Or.inr ⟨t + 1, b, by simpa using ht, by omega,
              le_of_lt (lt_of_lt_of_le hlt hab), ?_⟩
            intro x hx
            rcases List.mem_cons.mp hx with rfl | hx
            · exact hab
            · exact hall x hx
        · rintro (⟨_, hall⟩ | ⟨t, b, ht, hj, _, hall⟩)
          · exact absurd (hall a (List.mem_cons_self a rest)) (not_le.mpr hlt)
          · rcases t with _ | t'
            · simp only [List.getElem?_cons_zero, Option.some.injEq] at ht
              subst ht
              refine Or.inl ⟨by simp [show j = i by omega], ?_⟩
              intro x hx
              exact hall x (List.mem_cons_of_mem a hx)
            · simp only [List.getElem?_cons_succ] at ht
              refine Or.inr ⟨t', b, ht, by omega, hall a (List.mem_cons_self a rest), ?_⟩
              intro x hx
              exact hall x (List.mem_cons_of_mem a hx)
      · subst heq
        rw [if_pos (decide_eq_true (le_refl m)), if_neg (by simp), ih]
        constructor
        · rintro (⟨hj, hall⟩ | ⟨t, b, ht, hj, hmb, hall⟩)
          · rcases List.mem_append.mp hj with hj | hj
            · refine Or.inl ⟨hj, ?_⟩
              intro x hx
              rcases List.mem_cons.mp hx with rfl | hx
              · exact le_refl x
              · exact hall x hx
            · simp only [List.mem_singleton] at hj
              refine Or.inr ⟨0, m, by simp, by omega, le_refl m, ?_⟩
              intro x hx
              rcases List.mem_cons.mp hx with rfl | hx
              · exact le_refl x
              · exact hall x hx
          · refine Or.inr ⟨t + 1, b, by simpa using ht, by omega, hmb, ?_⟩
            intro x hx
            rcases List.mem_cons.mp hx with rfl | hx
            · exact hmb
            · exact hall x hx
        · rintro (⟨hj, hall⟩ | ⟨t, b, ht, hj, hmb, hall⟩)
          · refine Or.inl ⟨List.mem_append_left _ hj, ?_⟩
            intro x hx
            exact hall x (List.mem_cons_of_mem m hx)
          · rcases t with _ | t'
            · simp only [List.getElem?_cons_zero, Option.some.injEq] at ht
              subst ht
              refine Or.inl ⟨List.mem_append_right _ (by simp [show j = i by omega]), ?_⟩
              intro x hx
              exact hall x (List.mem_cons_of_mem m hx)
            · simp only [List.getElem?_cons_succ] at ht
              exact Or.inr ⟨t', b, ht, by omega, hmb, fun x hx =>
                hall x (List.mem_cons_of_mem m hx)⟩
      · rw [if_neg (by simp [not_le.mpr hgt]), ih]
        constructor
        · rintro (⟨hj, hall⟩ | ⟨t, b, ht, hj, hmb, hall⟩)
          · refine Or.inl ⟨hj, ?_⟩
            intro x hx
            rcases List.mem_cons.mp hx with rfl | hx
            · exact le_of_lt hgt
            · exact hall x hx
          · refine Or.inr ⟨t + 1, b, by simpa using ht, by omega, hmb, ?_⟩
            intro x hx
            rcases List.mem_cons.mp hx with rfl | hx
            · exact le_trans (le_of_lt hgt) hmb
            · exact hall x hx
        · rintro (⟨hj, hall⟩ | ⟨t, b, ht, hj, hmb, hall⟩)
          · exact Or.inl ⟨hj, fun x hx => hall x (List.mem_cons_of_mem a hx)⟩
          · rcases t with _ | t'
            · simp only [List.getElem?_cons_zero, Option.some.injEq] at ht
              subst ht
              exact absurd hmb (not_le.mpr hgt)
            · simp only [List.getElem?_cons_succ] at ht
              exact Or.inr ⟨t', b, ht, by omega, hmb, fun x hx =>
                hall x (List.mem_cons_of_mem a hx)⟩


/-- Claim C4 helper: under PUCT with `N ≥ 0` the exploration term is finite. -/
theorem baseU_puct_eq (rsqrt rlog : ℚ → ℚ) (N n : ℚ) (hN : 0 ≤ N) (hn : 0 ≤ n) :
    baseU rsqrt rlog true N n = .fin (rsqrt N / (1 + n)) := by
  have h1 : ¬(N < 0) := not_lt.mpr hN
  have h2 : (1 + n) ≠ 0 := by positivity
  simp [baseU, FP.sqrt, FP.div, h1, h2]

/-- Claim C4 helper: under UCT with `N ≥ 1` and a nonnegative logarithm the
exploration term is finite. -/
theorem baseU_uct_eq (rsqrt rlog : ℚ → ℚ) (N n : ℚ) (hN : 1 ≤ N)
    (hlogN : 0 ≤ rlog N) :
    baseU rsqrt rlog false N n = .fin (rsqrt (rlog N / max n 1)) := by
  have h1 : ¬(N < 0) := by linarith
  have h2 : N ≠ 0 := by linarith
  have h3 : (0:ℚ) < max n 1 := lt_of_lt_of_le one_pos (le_max_right n 1)
  have h4 : max n 1 ≠ 0 := ne_of_gt h3
  have h5 : ¬(rlog N / max n 1 < 0) := not_lt.mpr (div_nonneg hlogN (le_of_lt h3))
  simp [baseU, FP.log, FP.sqrt, FP.div, h1, h2, h4, h5]

/-- Claim C4 (amended): during selection at a node with
`all_children_evaluated` set, the score the code computes for child `i` is
`-child.get_equity() + c * U` in IEEE double arithmetic, and this equals the
claimed formula (with its `U = 0 at N = 0` case) whenever PUCT is used with
`parent.visit_count ≥ 1`, or UCT is used with `parent.visit_count ≥ 2` —
under UCT with `N = 0` the code instead produces `sqrt(ln 0 / max(n,1)) =
NaN` (see the counterexample).  Moreover, over finite scores above the
`lowest()` sentinel, the tied-best queue collects exactly the indices of
maximal score (from which the code picks with a random tie-break).
Quantified over every finite-domain behaviour `rsqrt`/`rlog` of the libm
`sqrt`/`log` with their actual domain facts (`sqrt 0 = 0`, `log x ≥ 0` for
`x ≥ 1`). -/
theorem C4_select_score_formula {S : Type} (rsqrt rlog : ℚ → ℚ) (c : ℚ)
    (usePuct useProbs : Bool) (parentVisit : ℕ) (probs : List ℚ) (i : ℕ)
    (child : UctNode S) (q : ℚ)
    (hq : getEquity child = .ok q)
    (hs0 : rsqrt 0 = 0)
    (hlog : ∀ x : ℚ, 1 ≤ x → 0 ≤ rlog x)
    (hpuct : usePuct = true → 1 ≤ parentVisit)
    (huct : usePuct = false → 2 ≤ parentVisit)
    (hprobs : useProbs = true → i < probs.length) :
    childScore rsqrt rlog c usePuct useProbs parentVisit probs i child
      = .ok (.fin (specChildScore rsqrt rlog c usePuct useProbs parentVisit probs i q
          (child.visit_count : ℚ)))
    ∧ ∀ (qs : List ℚ) (j : ℕ), (∀ a ∈ qs, DBL_LOWEST < a) →
        (j ∈ bestActionsFold (qs.map FP.fin) ↔
          ∃ a, qs[j]? = some a ∧ ∀ b ∈ qs, b ≤ a) := by
  constructor
  · have hnv : (0:ℚ) ≤ (child.visit_count : ℚ) := Nat.cast_nonneg _
    have hU0 : baseU rsqrt rlog usePuct ((parentVisit : ℚ) - 1) (child.visit_count : ℚ)
        = .fin (if ((parentVisit : ℚ) - 1) = 0 then 0
                else if usePuct then rsqrt ((parentVisit : ℚ) - 1) / (1 + (child.visit_count : ℚ))
                else rsqrt (rlog ((parentVisit : ℚ) - 1) / max (child.visit_count : ℚ) 1)) := by
      cases usePuct with
      | true =>
          have h1 : (1:ℚ) ≤ (parentVisit : ℚ) := by exact_mod_cast hpuct rfl
          have hN : (0:ℚ) ≤ (parentVisit : ℚ) - 1 := by linarith
          rw [baseU_puct_eq rsqrt rlog _ _ hN hnv]
          by_cases hN0 : ((parentVisit : ℚ) - 1) = 0
          · simp [hN0, hs0]
          · simp [hN0]
      | false =>
          have h1 : (2:ℚ) ≤ (parentVisit : ℚ) := by exact_mod_cast huct rfl
          have hN : (1:ℚ) ≤ (parentVisit : ℚ) - 1 := by linarith
          have hN0 : ((parentVisit : ℚ) - 1) ≠ 0 := by linarith
          rw [baseU_uct_eq rsqrt rlog _ _ hN (hlog _ hN)]
          simp [hN0]
    cases useProbs with
    | false =>
        simp only [childScore, hq, hU0, specChildScore, specU, FP.mul, FP.add]
        simp
    | true =>
        have hi : i < probs.length := hprobs rfl
        have hne : probs ≠ [] := List.ne_nil_of_length_pos (by omega)
        have hget : probs[i]? = some probs[i] := List.getElem?_eq_getElem hi
        simp only [childScore, hq, hU0, hget, specChildScore, specU, FP.mul, FP.add]
        simp [hne, hget]
  · intro qs j hL
    rw [bestActionsFold, bestActionsGo_mem]
    simp only [List.not_mem_nil, false_and, false_or]
    constructor
    · rintro ⟨t, a, ht, hj, _, hall⟩
      exact ⟨a, by rwa [show j = t by omega], hall⟩
    · rintro ⟨a, hj, hall⟩
      have ha : a ∈ qs := by
        have := List.getElem?_eq_some_iff.mp hj
        rcases this with ⟨hlt, hEq⟩
        exact hEq ▸ List.getElem_mem hlt
      exact ⟨j, a, hj, by omega, le_of_lt (hL a ha), hall⟩


/-- Claim C4 (counterexample): at a node with `visit_count = 1` (so
`N = 0`) under UCT, the code computes `U = sqrt(log(0) / max(0,1)) =
sqrt(-inf) = NaN` and the child's score is NaN — not the claimed
`-equity + c * 0`: the claim fails as stated. -/
theorem C4_counterexample_uct_N_zero :
    childScore id id 1 false false 1 [] 0 child4 = .ok .nan
    ∧ FP.nan ≠ FP.fin (specChildScore id id 1 false false 1 [] 0 0
        ((child4.visit_count : ℕ) : ℚ)) := by
  constructor
  · decide
  · decide

/-- Claim C4 (witness): the amended score formula applied at a concrete
PUCT configuration with `parent.visit_count = 1`. -/
theorem C4_select_score_formula_witness :
    childScore id (fun _ => (0:ℚ)) 1 true false 1 [] 0 child4
      = .ok (.fin (specChildScore id (fun _ => 0) 1 true false 1 [] 0 0
          (child4.visit_count : ℚ)))
    ∧ ∀ (qs : List ℚ) (j : ℕ), (∀ a ∈ qs, DBL_LOWEST < a) →
        (j ∈ bestActionsFold (qs.map FP.fin) ↔
          ∃ a, qs[j]? = some a ∧ ∀ b ∈ qs, b ≤ a) :=
  C4_select_score_formula id (fun _ => 0) 1 true false 1 [] 0 child4 0
    (by decide) rfl (fun _ _ => le_refl 0) (fun _ => le_refl 1)
    (fun h => nomatch h) (fun h => nomatch h)

/-- Claim C5 (counterexample): the claim states that with `use_probs` set
but `eval_probs` empty (e.g. under rollout evaluation) the exploration term
is left unchanged and no access into `eval_probs` occurs.  The code has no
such guard: `U *= curr_node_ptr->eval_probs[i]` runs whenever `use_probs`
is set, and with empty `eval_probs` the access is out of bounds (UB in
C++; an error in the embedding), not a no-op. -/
theorem C5_counterexample_empty_probs :
    childScore id id 1 true true 2 [] 0 child4 = .error "UB: vector index out of range" := by
  decide

/-- Claim C5 (amended): the score computation reads `eval_probs` only when
`use_probs` is set (with `use_probs` unset the result does not depend on
`eval_probs` at all); when `use_probs` is set the access is in bounds iff
`i < |eval_probs|` (in particular whenever `eval_probs` has length
`|children|` and `i` indexes a child), and with empty `eval_probs` every
access is out of bounds. -/
theorem C5_eval_probs_access {S : Type} (rsqrt rlog : ℚ → ℚ) (c : ℚ)
    (usePuct : Bool) (parentVisit : ℕ) (child : UctNode S) (q : ℚ)
    (hq : getEquity child = .ok q) :
    (∀ probs probs' : List ℚ, ∀ i : ℕ,
        childScore rsqrt rlog c usePuct false parentVisit probs i child
          = childScore rsqrt rlog c usePuct false parentVisit probs' i child)
    ∧ (∀ probs : List ℚ, ∀ i : ℕ, i < probs.length →
        childScore rsqrt rlog c usePuct true parentVisit probs i child
          = .ok (FP.add (.fin (-q)) (FP.mul (.fin c)
              (FP.mul (baseU rsqrt rlog usePuct ((parentVisit : ℚ) - 1)
                (child.visit_count : ℚ)) (.fin (probs[i]?.getD 0))))))
    ∧ (∀ i : ℕ,
        childScore rsqrt rlog c usePuct true parentVisit [] i child
          = .error "UB: vector index out of range") := by
  refine ⟨?_, ?_, ?_⟩
  · intro probs probs' i
    simp [childScore, hq]
  · intro probs i hi
    have hget : probs[i]? = some probs[i] := List.getElem?_eq_getElem hi
    simp [childScore, hq, hget]
  · intro i
    simp [childScore, hq]

/-- Claim C5 (witness): the amended statement applied at a concrete child. -/
theorem C5_eval_probs_access_witness :
    (∀ probs probs' : List ℚ, ∀ i : ℕ,
        childScore id id 1 true false 2 probs i child4
          = childScore id id 1 true false 2 probs' i child4)
    ∧ (∀ probs : List ℚ, ∀ i : ℕ, i < probs.length →
        childScore id id 1 true true 2 probs i child4
          = .ok (FP.add (.fin (-0)) (FP.mul (.fin 1)
              (FP.mul (baseU id id true (((2:ℕ) : ℚ) - 1)
                (child4.visit_count : ℚ)) (.fin (probs[i]?.getD 0))))))
    ∧ (∀ i : ℕ,
        childScore id id 1 true true 2 [] i child4
          = .error "UB: vector index out of range") :=
  C5_eval_probs_access id id 1 true 2 child4 0 (by decide)

@[simp]
theorem setChildren_state {S : Type} (n : UctNode S) (c : List (UctNode S)) :
    (n.setChildren c).state = n.state := by cases n; rfl

@[simp]
theorem setChildren_visit_count {S : Type} (n : UctNode S) (c : List (UctNode S)) :
    (n.setChildren c).visit_count = n.visit_count := by cases n; rfl

@[simp]
theorem setChildren_Q_sum {S : Type} (n : UctNode S) (c : List (UctNode S)) :
    (n.setChildren c).Q_sum = n.Q_sum := by cases n; rfl

@[simp]
theorem setChildren_children {S : Type} (n : UctNode S) (c : List (UctNode S)) :
    (n.setChildren c).children = c := by cases n; rfl

@[simp]
theorem setEval_visit_count {S : Type} (n : UctNode S) (e : ℚ) :
    (n.setEval e).visit_count = n.visit_count := by cases n; rfl

@[simp]
theorem setEval_Q_sum {S : Type} (n : UctNode S) (e : ℚ) :
    (n.setEval e).Q_sum = n.Q_sum := by cases n; rfl

@[simp]
theorem setEval_children {S : Type} (n : UctNode S) (e : ℚ) :
    (n.setEval e).children = n.children := by cases n; rfl

@[simp]
theorem setProbs_visit_count {S : Type} (n : UctNode S) (p : List ℚ) :
    (n.setProbs p).visit_count = n.visit_count := by cases n; rfl

@[simp]
theorem setProbs_Q_sum {S : Type} (n : UctNode S) (p : List ℚ) :
    (n.setProbs p).Q_sum = n.Q_sum := by cases n; rfl

@[simp]
theorem setProbs_children {S : Type} (n : UctNode S) (p : List ℚ) :
    (n.setProbs p).children = n.children := by cases n; rfl

@[simp]
theorem setAllEvaluated_visit_count {S : Type} (n : UctNode S) :
    n.setAllEvaluated.visit_count = n.visit_count := by cases n; rfl

@[simp]
theorem setAllEvaluated_Q_sum {S : Type} (n : UctNode S) :
    n.setAllEvaluated.Q_sum = n.Q_sum := by cases n; rfl

@[simp]
theorem setAllEvaluated_children {S : Type} (n : UctNode S) :
    n.setAllEvaluated.children = n.children := by cases n; rfl


theorem preserves_refl {S : Type} (a : UctNode S) : preserves a a :=
  fun _ x h => ⟨x, h, rfl, rfl⟩

theorem preserves_trans {S : Type} {a b c : UctNode S}
    (h1 : preserves a b) (h2 : preserves b c) : preserves a c := by
  intro p x hx
  obtain ⟨y, hy, hyv, hyq⟩ := h1 p x hx
  obtain ⟨z, hz, hzv, hzq⟩ := h2 p y hy
  exact ⟨z, hz, hzv.trans hyv, hzq.trans hyq⟩

/-- Claim C6 helper: preservation follows from equal root statistics plus
pointwise preservation of the children. -/
theorem preserves_parts {S : Type} {a b : UctNode S}
    (hv : b.visit_count = a.visit_count) (hq : b.Q_sum = a.Q_sum)
    (hc : ∀ (i : ℕ) (ca : UctNode S), a.children[i]? = some ca →
      ∃ cb, b.children[i]? = some cb ∧ preserves ca cb) : preserves a b := by
  intro p x hx
  cases p with
  | nil =>
      simp only [getAt, Option.some.injEq] at hx
      subst hx
      exact ⟨b, rfl, hv, hq⟩
  | cons i rest =>
      simp only [getAt] at hx ⊢
      cases hca : a.children[i]? with
      | none => rw [hca] at hx; exact absurd hx (by simp)
      | some ca =>
          rw [hca] at hx
          obtain ⟨cb, hcb, hpres⟩ := hc i ca hca
          rw [hcb]
          exact hpres rest x hx

theorem getChildren_preserves {S : Type} (g : Game S) (n : UctNode S) :
    preserves n (getChildren g n) := by
  unfold getChildren
  by_cases h : n.children.isEmpty
  · rw [if_pos h]
    refine preserves_parts (by simp) (by simp) ?_
    intro i ca hca
    rw [List.isEmpty_iff.mp h] at hca
    exact absurd hca (by simp)
  · rw [if_neg h]; exact preserves_refl n

/-- Claim C6 helper: a first evaluation changes `eval_Q`/`eval_probs` (and
possibly materializes children) but no `visit_count` or `Q_sum`. -/
theorem evalCore_preserves {S : Type} {g : Game S} {rand : ℕ → ℚ}
    {useRollout : Bool} {n n1 : UctNode S} {k : ℕ} {tr : Bool} {k1 : ℕ}
    (h : evalCore g rand useRollout n k = .ok (n1, tr, k1)) : preserves n n1 := by
  have hparts : ∀ (m : UctNode S) (e : ℚ), preserves m (m.setEval e) := by
    intro m e
    exact preserves_parts (by simp) (by simp)
      (fun i ca hca => ⟨ca, by simpa using hca, preserves_refl ca⟩)
  unfold evalCore at h
  split at h
  · exact absurd h (by simp)
  · split at h
    · simp only [Except.ok.injEq, Prod.mk.injEq] at h
      obtain ⟨h1, -, -⟩ := h
      subst h1
      exact hparts n _
    · split at h
      · simp only [Except.ok.injEq, Prod.mk.injEq] at h
        obtain ⟨h1, -, -⟩ := h
        subst h1
        exact hparts n _
      · split at h
        · split at h
          · exact absurd h (by simp)
          · simp only [Except.ok.injEq, Prod.mk.injEq] at h
            obtain ⟨h1, -, -⟩ := h
            subst h1
            exact hparts n _
        · dsimp only [] at h
          split at h
          · exact absurd h (by simp)
          · simp only [Except.ok.injEq, Prod.mk.injEq] at h
            obtain ⟨h1, -, -⟩ := h
            subst h1
            refine preserves_trans (getChildren_preserves g n) ?_
            refine preserves_parts (by simp) (by simp) ?_
            intro i ca hca
            exact ⟨ca, by simpa using hca, preserves_refl ca⟩

/-- Claim C6 helper: the one-ply child evaluation pass preserves every
child's statistics pointwise. -/
theorem evalChildrenList_preserves {S : Type} {g : Game S} {rand : ℕ → ℚ}
    {useRollout : Bool} :
    ∀ {cs cs' : List (UctNode S)} {k k2 : ℕ},
      evalChildrenList g rand useRollout cs k = .ok (cs', k2) →
      ∀ (i : ℕ) (ca : UctNode S), cs[i]? = some ca →
        ∃ cb, cs'[i]? = some cb ∧ preserves ca cb := by
  intro cs
  induction cs with
  | nil =>
      intro cs' k k2 h i ca hca
      exact absurd hca (by simp)
  | cons c rest ih =>
      intro cs' k k2 h i ca hca
      unfold evalChildrenList at h
      cases h1 : evalCore g rand useRollout c k with
      | error msg => rw [h1] at h; exact absurd h (by simp)
      | ok v =>
          obtain ⟨c', tr', k'⟩ := v
          rw [h1] at h
          dsimp only [] at h
          cases h2 : evalChildrenList g rand useRollout rest k' with
          | error msg => rw [h2] at h; exact absurd h (by simp)
          | ok w =>
              obtain ⟨rest', k''⟩ := w
              rw [h2] at h
              simp only [Except.ok.injEq, Prod.mk.injEq] at h
              obtain ⟨hcs', -⟩ := h
              subst hcs'
              cases i with
              | zero =>
                  simp only [List.getElem?_cons_zero, Option.some.injEq] at hca ⊢
                  exact ⟨c', rfl, hca ▸ evalCore_preserves h1⟩
              | succ i' =>
                  simp only [List.getElem?_cons_succ] at hca ⊢
                  exact ih h2 i' ca hca

/-- Claim C6 helper: `uct_node::eval` preserves every node's `visit_count`
and `Q_sum` (it only sets evaluations, priors and flags, and materializes
children). -/
theorem evalNode_preserves {S : Type} {g : Game S} {rand : ℕ → ℚ}
    {useRollout evalChildren : Bool} {n n1 : UctNode S} {k k1 : ℕ}
    (h : evalNode g rand useRollout evalChildren n k = .ok (n1, k1)) :
    preserves n n1 := by
  unfold evalNode at h
  cases h1 : evalCore g rand useRollout n k with
  | error msg => rw [h1] at h; exact absurd h (by simp)
  | ok v =>
      obtain ⟨m, tr, km⟩ := v
      rw [h1] at h
      dsimp only [] at h
      split at h
      · cases h2 : evalChildrenList g rand useRollout (getChildren g m).children km with
        | error msg => rw [h2] at h; exact absurd h (by simp)
        | ok w =>
            obtain ⟨cs', k2⟩ := w
            rw [h2] at h
            simp only [Except.ok.injEq, Prod.mk.injEq] at h
            obtain ⟨hn1, -⟩ := h
            subst hn1
            refine preserves_trans (evalCore_preserves h1) ?_
            refine preserves_trans (getChildren_preserves g m) ?_
            refine preserves_parts (by simp) (by simp) ?_
            intro i ca hca
            obtain ⟨cb, hcb, hpres⟩ := evalChildrenList_preserves h2 i ca hca
            exact ⟨cb, by simpa using hcb, hpres⟩
      · simp only [Except.ok.injEq, Prod.mk.injEq] at h
        obtain ⟨hn1, -⟩ := h
        subst hn1
        exact evalCore_preserves h1

/-- Claim C6 (counterexample): the claim states `simulate(0)` evaluates no
node, in particular an unevaluated root stays unevaluated.  The code
evaluates an unevaluated root before the playout loop regardless of the
simulation count: after `simulate(0)` from a fresh two-move root the root's
`eval_Q` is set (here to the rollout value `1`), no longer the sentinel. -/
theorem C6_counterexample_simulate_zero_evaluates_root :
    (simulate gameA id id 1 rand0 true false false false 0 (newNode 0) 0).map
      (fun r => r.1.eval_Q) = .ok (some 1)
    ∧ (newNode (0 : ℕ)).eval_Q = none := by
  constructor
  · decide
  · decide

/-- Claim C6 (amended): `simulate(0)` runs zero playouts and leaves every
existing node's `visit_count` and `Q_sum` unchanged; it is not a complete
no-op, though: it materializes the root's children, and it evaluates an
unevaluated root (and, under `eval_children`, the root's children) — see the
counterexample. -/
theorem C6_simulate_zero_preserves_counts {S : Type} (g : Game S)
    (rsqrt rlog : ℚ → ℚ) (c : ℚ) (rand : ℕ → ℚ)
    (useRollout evalChildren usePuct useProbs : Bool)
    (n n' : UctNode S) (k k' : ℕ)
    (h : simulate g rsqrt rlog c rand useRollout evalChildren usePuct useProbs 0 n k
      = .ok (n', k')) : preserves n n' := by
  unfold simulate at h
  dsimp only [] at h
  split at h
  · exact absurd h (by simp)
  · split at h
    · exact absurd h (by simp)
    · rename_i n1 k1 heq
      simp only [simLoop, Except.ok.injEq, Prod.mk.injEq] at h
      obtain ⟨hn', -⟩ := h
      subst hn'
      split at heq
      · exact preserves_trans (getChildren_preserves g n) (evalNode_preserves heq)
      · simp only [Except.ok.injEq, Prod.mk.injEq] at heq
        obtain ⟨h1, -⟩ := heq
        subst h1
        exact getChildren_preserves g n

/-- Claim C6 (witness): the amended statement applied to the fresh two-move
root; `simulate(0)` materializes the children and evaluates the root, and
the preservation statement holds of the result. -/
theorem C6_simulate_zero_preserves_counts_witness :
    preserves (newNode (0 : ℕ))
      (UctNode.mk 0 0 (some 1) 0 false [] [newNode 1, newNode 2]) :=
  C6_simulate_zero_preserves_counts gameA id id 1 rand0 true false false false
    (newNode 0) (UctNode.mk 0 0 (some 1) 0 false [] [newNode 1, newNode 2]) 0 1
    (by rfl)

/-- Claim C7 helper: a successful `mapME` relates input and output
elementwise. -/
theorem mapME_ok_forall₂ {α β : Type} (f : α → Except String β) :
    ∀ {l : List α} {l' : List β}, mapME f l = .ok l' →
      List.Forall₂ (fun a b => f a = .ok b) l l' := by
  intro l
  induction l with
  | nil =>
      intro l' h
      simp only [mapME, Except.ok.injEq] at h
      subst h
      exact List.Forall₂.nil
  | cons a rest ih =>
      intro l' h
      unfold mapME at h
      cases h1 : f a with
      | error msg => rw [h1] at h; exact absurd h (by simp)
      | ok b =>
          rw [h1] at h
          dsimp only [] at h
          cases h2 : mapME f rest with
          | error msg => rw [h2] at h; exact absurd h (by simp)
          | ok bs =>
              rw [h2] at h
              simp only [Except.ok.injEq] at h
              subst h
              exact List.Forall₂.cons h1 (ih h2)

/-- Claim C7 helper: the 4-key descending order implies descending equity
(the first key). -/
theorem ge4_equity_le {a b : ℚ × ℚ × ℕ × String} (h : ge4 a b) : b.1 ≤ a.1 := by
  unfold ge4 key4 at h
  rcases (Prod.Lex.le_iff _ _).mp h with hlt | ⟨heq, -⟩
  · exact le_of_lt hlt
  · exact le_of_eq heq

/-- Claim C7: `get_sorted_actions(flip)` produces one 3-tuple
`(visit_count, equity, action_text(flip))` per child — equity being
`-child.get_equity()` for an evaluated child and the minimum-double sentinel
otherwise (the `mk4` key builder) — ordered as some permutation of the
4-tuples sorted descending by the lexicographic key
`(equity, non_terminal_rank, visit_count, action_text)` and then projected;
in particular the reported equities are non-increasing. -/
theorem C7_get_sorted_actions_sorted {S : Type} (g : Game S) (flip : Bool)
    (n n' : UctNode S) (out : List (ℕ × ℚ × String))
    (h : getSortedActions g flip n = .ok (n', out)) :
    ∃ moves sorted : List (ℚ × ℚ × ℕ × String),
      List.Forall₂ (fun c m => mk4 g flip c = .ok m) n'.children moves ∧
      sorted.Perm moves ∧ List.Sorted ge4 sorted ∧ out = sorted.map proj3 ∧
      List.Sorted (fun a b : ℕ × ℚ × String => b.2.1 ≤ a.2.1) out := by
  unfold getSortedActions at h
  dsimp only [] at h
  cases hm : mapME (mk4 g flip) (getChildren g n).children with
  | error msg => rw [hm] at h; exact absurd h (by simp)
  | ok moves =>
      rw [hm] at h
      simp only [Except.ok.injEq, Prod.mk.injEq] at h
      obtain ⟨hn', hout⟩ := h
      subst hn'
      refine ⟨moves, List.insertionSort ge4 moves, mapME_ok_forall₂ _ hm,
        List.perm_insertionSort ge4 moves, List.sorted_insertionSort ge4 moves,
        hout.symm, ?_⟩
      subst hout
      have hs : List.Sorted ge4 (List.insertionSort ge4 moves) :=
        List.sorted_insertionSort ge4 moves
      exact List.Pairwise.map proj3 (fun a b hab => ge4_equity_le hab) hs

/-- Claim C7 (witness): the sortedness statement applied to a concrete root
with two evaluated children (parent-perspective equities `1/2` and `-1/2`). -/
theorem C7_get_sorted_actions_sorted_witness :
    ∃ moves sorted : List (ℚ × ℚ × ℕ × String),
      List.Forall₂ (fun c m => mk4 gameB true c = .ok m) rootB.children moves ∧
      sorted.Perm moves ∧ List.Sorted ge4 sorted ∧
      ([(0, 1/2, "1"), (0, -(1/2), "2")] : List (ℕ × ℚ × String)) = sorted.map proj3 ∧
      List.Sorted (fun a b : ℕ × ℚ × String => b.2.1 ≤ a.2.1)
        [(0, 1/2, "1"), (0, -(1/2), "2")] :=
  C7_get_sorted_actions_sorted gameB true rootB rootB
    [(0, 1/2, "1"), (0, -(1/2), "2")] (by rfl)

/-- Claim C8: the binding-surface `get_evaluation` returns `none` exactly
when the root equity is exactly `+1.0` or `-1.0` while more than 80 actions
are listed; in every other case — including an empty action list — it
returns the equity itself. -/
theorem C8_get_evaluation_false_terminal_mask {S : Type} (g : Game S)
    (n n' : UctNode S) (q : ℚ) (acts : List (ℕ × ℚ × String))
    (hq : getEquity n = .ok q)
    (hs : getSortedActions g false n = .ok (n', acts)) :
    (bindingGetEvaluation g n = .ok none ↔ ((q = 1 ∨ q = -1) ∧ 80 < acts.length))
    ∧ (¬((q = 1 ∨ q = -1) ∧ 80 < acts.length) →
        bindingGetEvaluation g n = .ok (some q)) := by
  have hev : threadedGetEvaluation n = q := by
    unfold threadedGetEvaluation
    rw [hq]
  unfold bindingGetEvaluation
  rw [hs, hev]
  dsimp only []
  by_cases he : acts.isEmpty
  · rw [if_pos he]
    have hlen : acts.length = 0 := by simpa [List.isEmpty_iff] using he
    constructor
    · constructor
      · intro habs
        exact absurd habs (by simp)
      · rintro ⟨-, hgt⟩
        omega
    · intro _
      rfl
  · rw [if_neg he]
    by_cases hc : (q = 1 ∨ q = -1) ∧ 80 < acts.length
    · rw [if_pos hc]
      exact ⟨⟨fun _ => hc, fun _ => rfl⟩, fun hn => absurd hc hn⟩
    · rw [if_neg hc]
      exact ⟨⟨fun habs => absurd habs (by simp), fun hcc => absurd hcc hc⟩,
        fun _ => rfl⟩

/-- Claim C8 (witness): at a concrete root with equity `0` and two listed
actions, the evaluation passes through. -/
theorem C8_get_evaluation_false_terminal_mask_witness :
    bindingGetEvaluation gameB rootB = .ok (some 0) :=
  (C8_get_evaluation_false_terminal_mask gameB rootB rootB 0
    [(0, 1/2, "1"), (0, -(1/2), "2")] (by rfl) (by rfl)).2 (by decide)

/-- Claim C9 (counterexample): the claim states that `target_sims` is not
decremented for a failed simulation iteration.  `run_simulation` swallows
the failure internally, so the `target_sims_.fetch_sub(1)` that follows it
in the worker loop body runs unconditionally: a failing iteration still
decrements the counter (from `5` to `4` here). -/
theorem C9_counterexample_failed_iteration_decrements :
    workerLoopBody (fun _ => .error "engine error") (0 : ℕ) 5 = (0, 4)
    ∧ (4 : ℕ) ≠ 5 := by
  constructor
  · rfl
  · decide

/-- Claim C9 (amended): when one simulation iteration fails with an engine
error, the error is swallowed inside `run_simulation` (the worker continues,
the tree is left as the failed call left it) and `target_sims` *is*
decremented for that iteration — so a persistently failing engine drains
`target_sims` instead of spinning on it. -/
theorem C9_worker_swallows_and_decrements {α : Type}
    (step : α → Except String α) (tree : α) (target : ℕ) (msg : String)
    (hfail : step tree = .error msg) :
    workerLoopBody step tree target = (tree, target - 1) := by
  unfold workerLoopBody run_simulation
  rw [hfail]

/-- Claim C9 (witness): the amended statement at a concrete failing step. -/
theorem C9_worker_swallows_and_decrements_witness :
    workerLoopBody (fun _ => .error "engine error") (7 : ℕ) 3 = (7, 2) :=
  C9_worker_swallows_and_decrements (fun _ => .error "engine error") 7 3
    "engine error" rfl

@[simp]
theorem setChildren_setChildren {S : Type} (n : UctNode S)
    (c d : List (UctNode S)) : (n.setChildren c).setChildren d = n.setChildren d := by
  cases n; rfl

/-- Claim C10 helper: materializing children twice is the same as once. -/
theorem getChildren_idem {S : Type} (g : Game S) (n : UctNode S) :
    getChildren g (getChildren g n) = getChildren g n := by
  unfold getChildren
  by_cases h : n.children.isEmpty
  · rw [if_pos h]
    by_cases h2 : ((n.setChildren ((g.get_legal_moves n.state).map newNode)).children).isEmpty
    · rw [if_pos h2]
      simp only [setChildren_children] at h2
      simp [setChildren_state, List.isEmpty_iff.mp h2]
    · rw [if_neg h2]
  · rw [if_neg h, if_neg h]

/-- Claim C10 helper: a successful child-state scan yields the first
matching child. -/
theorem findChildIdx_some {S : Type} [DecidableEq S] (input : S) :
    ∀ (l : List (UctNode S)) (off i : ℕ), findChildIdx input l off = some i →
      ∃ t c, i = off + t ∧ l[t]? = some c ∧ c.state = input ∧
        ∀ (u : ℕ) (cu : UctNode S), u < t → l[u]? = some cu → cu.state ≠ input := by
  intro l
  induction l with
  | nil => intro off i h; exact absurd h (by simp [findChildIdx])
  | cons c rest ih =>
      intro off i h
      unfold findChildIdx at h
      by_cases hc : input = c.state
      · rw [if_pos hc] at h
        simp only [Option.some.injEq] at h
        subst h
        exact ⟨0, c, by omega, by simp, hc.symm, fun u cu hu _ => absurd hu (by omega)⟩
      · rw [if_neg hc] at h
        obtain ⟨t, d, hi, hget, hst, hearlier⟩ := ih (off + 1) i h
        refine ⟨t + 1, d, by omega, by simpa using hget, hst, ?_⟩
        intro u cu hu hgetu
        cases u with
        | zero =>
            simp only [List.getElem?_cons_zero, Option.some.injEq] at hgetu
            subst hgetu
            exact fun habs => hc habs.symm
        | succ u' =>
            simp only [List.getElem?_cons_succ] at hgetu
            exact hearlier u' cu (by omega) hgetu

/-- Claim C10 helper: the scan fails exactly when no child state matches. -/
theorem findChildIdx_eq_none {S : Type} [DecidableEq S] (input : S) :
    ∀ (l : List (UctNode S)) (off : ℕ), (∀ c ∈ l, c.state ≠ input) →
      findChildIdx input l off = none := by
  intro l
  induction l with
  | nil => intro off _; rfl
  | cons c rest ih =>
      intro off hall
      unfold findChildIdx
      rw [if_neg (fun habs => hall c (List.mem_cons_self c rest) habs.symm)]
      exact ih (off + 1) (fun d hd => hall d (List.mem_cons_of_mem c hd))

/-- Claim C10: `set_state(input, output)` (i) returns with the output
untouched when `input` equals the current state; (ii) when `input` equals
the state of one of the lazily materialized children, sets the output to the
first such child, obtained through `make_move` (which severs the child's
parent back-reference — in this embedding, returns the child subtree as a
standalone root); (iii) in every other case throws `"Unable to find state in
child node."` with the output untouched — the line that would construct a
fresh root from `input` sits after the unconditional throw and is
unreachable, so no fresh root is ever built. -/
theorem C10_set_state_cases {S : Type} [DecidableEq S] (g : Game S)
    (n : UctNode S) (input : S) :
    (input = n.state → setState g n input = .ok none)
    ∧ (∀ i : ℕ, input ≠ n.state →
        findChildIdx input (getChildren g n).children 0 = some i →
        ∃ c, (getChildren g n).children[i]? = some c ∧ c.state = input ∧
          setState g n input = .ok (some c))
    ∧ (input ≠ n.state → (∀ c ∈ (getChildren g n).children, c.state ≠ input) →
        setState g n input = .error "Unable to find state in child node.") := by
  refine ⟨?_, ?_, ?_⟩
  · intro h
    unfold setState
    rw [if_pos h]
  · intro i hne hfind
    obtain ⟨t, c, hi, hget, hst, -⟩ := findChildIdx_some input _ 0 i hfind
    have hit : i = t := by omega
    subst hit
    refine ⟨c, hget, hst, ?_⟩
    unfold setState
    rw [if_neg hne]
    dsimp only []
    rw [hfind]
    unfold makeMove
    rw [getChildren_idem]
    dsimp only []
    rw [hget]
    rfl
  · intro hne hall
    unfold setState
    rw [if_neg hne]
    dsimp only []
    rw [findChildIdx_eq_none input _ 0 hall]

/-- Claim C10 (witness): setting the current state itself is a no-op on the
output. -/
theorem C10_set_state_cases_witness :
    setState gameB rootB 0 = .ok none :=
  (C10_set_state_cases gameB rootB 0).1 (by rfl)
